import Mathlib

/-!
# go-log-context: tracker registry, metrics facade and context forking

A shallow embedding of `tracker.go`, `metrics.go`, `logger.go` and `context.go`.

Conventions of the embedding:

* Go slices are headers `(arr, len, cap)` over a heap of backing arrays, so that
  sharing of a backing array between two headers is visible.
* `time.Now()` is an input: every operation receives the clock readings it takes,
  in the order in which the source takes them.
* A run-time panic is the `Except.error` result.
* The operations are embedded sequentially: a mutex taken and released inside one
  call, and a goroutine run to completion, leave no trace in the result.
-/

namespace LogContext

/-! ## Go slices -/

/-- Memory holding the backing arrays of the slices with elements of type `α`.
`cells a i` is element `i` of the array at address `a`, `next` is the address the
next allocation receives and `grow oldCap needed` is the capacity the runtime
would like to give a reallocated array (the runtime never gives less than
`needed`). -/
structure Heap (α : Type) where
  cells : Nat → Nat → α
  next : Nat
  grow : Nat → Nat → Nat

/-- Slice header: address of the backing array, length and capacity. -/
structure Slice where
  arr : Nat
  len : Nat
  cap : Nat
deriving DecidableEq, Repr

/-- The nil slice, zero value of every slice type. -/
def Slice.nil : Slice := ⟨0, 0, 0⟩

/-- The elements `s[0], ..., s[len-1]` of a slice. -/
def Heap.read {α : Type} (h : Heap α) (s : Slice) : List α :=
  (List.range s.len).map (h.cells s.arr)

/-- Assignment `a[i] = v` into a backing array. -/
def Heap.store {α : Type} (h : Heap α) (a i : Nat) (v : α) : Heap α :=
  { h with cells := fun b j => if b = a ∧ j = i then v else h.cells b j }

/-- The builtin `append(s, xs...)`: when the capacity suffices the new elements
are written into the backing array of `s` right after its last element and the
header only grows in length; otherwise a new array is allocated, the elements of
`s` are copied into it and the new elements follow. -/
def Heap.append {α : Type} [Inhabited α] (h : Heap α) (s : Slice) (xs : List α) :
    Heap α × Slice :=
  let need := s.len + xs.length
  if need ≤ s.cap then
    ({ h with cells := fun b j =>
        if b = s.arr ∧ s.len ≤ j ∧ j < need then xs.getD (j - s.len) default
        else h.cells b j },
     { s with len := need })
  else
    ({ h with
        cells := fun b j =>
          if b = h.next then
            (if j < s.len then h.cells s.arr j else xs.getD (j - s.len) default)
          else h.cells b j
        next := h.next + 1 },
     ⟨h.next, need, max (h.grow s.cap need) need⟩)

/-! ## Time -/

/-- A `time.Time`, as nanoseconds since the Unix epoch. -/
abbrev Time := Int

/-- A `time.Duration`, in nanoseconds. -/
abbrev Duration := Int

/-- The zero `time.Time` (January 1, year 1 UTC). -/
def Time.zero : Time := -62135596800 * 1000000000

/-- `t.Sub(u)` for two clock readings (the readings of one process are never
far enough apart for the library to saturate the result). -/
def Time.Sub (t u : Time) : Duration := t - u

/-- `t.Unix()`: whole seconds since the Unix epoch, rounded down. -/
def Time.Unix (t : Time) : Int := t / 1000000000

/-- Two's complement wrap-around of `int64` arithmetic. -/
def wrap64 (x : Int) : Int :=
  (x + 9223372036854775808) % 18446744073709551616 - 9223372036854775808

/-! ## tracker.go -/

/-- Run-time panics of the Go runtime: `index out of range` of an index expression,
`slice bounds out of range` of a slice expression, and the nil pointer dereference. -/
inductive Fault where
  | indexOutOfRange
  | sliceBoundsOutOfRange
  | nilDereference
deriving DecidableEq, Repr

/-- The fault an operation ended in, if any. -/
def faultOf {α : Type} : Except Fault α → Option Fault
  | .error e => some e
  | .ok _ => none

/-- A `sync.Mutex`. `SetTop` locks it on entry and unlocks it on every exit, so
between the calls of a sequential run it is unlocked. -/
inductive Mutex where
  | unlocked
deriving DecidableEq, Repr

structure TrackerInstant where
  Timestamp : Time
  State : String
  Tags : List String
deriving DecidableEq, Repr

/-- The zero value `TrackerInstant{}`. -/
def TrackerInstant.zero : TrackerInstant := ⟨Time.zero, "", []⟩

structure ProfileInstant where
  Timestamp : Duration
  State : String
  Tags : List String
deriving DecidableEq, Repr

instance : Inhabited ProfileInstant := ⟨⟨0, "", []⟩⟩

/-- `ProfileState`: the slice header `Top`, `Previous`, and `lock`, a `*sync.Mutex`
that is nil (`none`) in the zero value `ProfileState{}`. -/
structure ProfileState where
  Top : Slice
  Previous : Time
  lock : Option Mutex
deriving DecidableEq, Repr

/-- `(*ProfileState).SetTop`; `now₁` and `now₂` are the two readings of
`time.Now()`, in source order. `state.lock.Lock()` dereferences the lock first. In
the literal `ProfileInstant{State: location[0], Tags: location[1:]}` the language
leaves open which of the two bounds checks comes first; the gc compiler checks the
slice expression first, so an empty `location` ends in
`slice bounds out of range [1:0]`. -/
def ProfileState.SetTop (h : Heap ProfileInstant) (state : ProfileState)
    (now₁ now₂ : Time) (_name : String) (location : List String) :
    Except Fault (Heap ProfileInstant × ProfileState) :=
  match state.lock with
  | none => .error .nilDereference
  | some _ =>
    let difference := Time.Sub now₁ state.Previous
    let state := { state with Previous := now₂ }
    let h :=
      if state.Top.len > 0 then
        h.store state.Top.arr (state.Top.len - 1)
          { h.cells state.Top.arr (state.Top.len - 1) with Timestamp := difference }
      else h
    match location with
    | [] => .error .sliceBoundsOutOfRange
    | l0 :: rest =>
      let r := h.append state.Top [{ Timestamp := 0, State := l0, Tags := rest }]
      .ok (r.1, { state with Top := r.2 })

/-- `Trackers`: the two `sync.Map`s. The profile map holds `*ProfileState`; the
embedding keeps the pointee under the name. Both fields are unexported and the one
store into `profile` is that of `Reset`, of a state with a lock of its own, which no
operation takes away: `locked` records it. -/
structure Trackers where
  markers : String → Option TrackerInstant
  profile : String → Option ProfileState
  locked : ∀ name state, profile name = some state → state.lock ≠ none

/-- `sync.Map.Store`. -/
def mapStore {β : Type} (m : String → Option β) (k : String) (v : β) : String → Option β :=
  fun x => if x = k then some v else m x

/-- `sync.Map.Delete`. -/
def mapDelete {β : Type} (m : String → Option β) (k : String) : String → Option β :=
  fun x => if x = k then none else m x

/-- `(*Trackers).SetProfile`. -/
def Trackers.SetProfile (h : Heap ProfileInstant) (trackers : Trackers)
    (now₁ now₂ : Time) (name : String) (location : List String) :
    Except Fault (Heap ProfileInstant × Trackers) :=
  match hload : trackers.profile name with
  | none => .ok (h, trackers)
  | some profile =>
    match hset : profile.SetTop h now₁ now₂ name location with
    | .error e => .error e
    | .ok (h', profile') =>
      .ok (h', { trackers with
        profile := mapStore trackers.profile name profile'
        locked := by
          intro n st hn
          simp only [mapStore] at hn
          split at hn
          · cases hn
            have hl := trackers.locked name profile hload
            unfold ProfileState.SetTop at hset
            cases hlock : profile.lock with
            | none => exact absurd hlock hl
            | some mu =>
              simp only [hlock] at hset
              split at hset
              · cases hset
              · cases hset
                simp [hlock]
          · exact trackers.locked n st hn })

/-- `(*Trackers).SetTracker`; `now` is the reading stored in the instant, `now₁`
and `now₂` are the readings `SetTop` takes. As in `SetTop`, the gc compiler checks
`location[1:]` before `location[0]`. -/
def Trackers.SetTracker (h : Heap ProfileInstant) (trackers : Trackers)
    (now now₁ now₂ : Time) (name : String) (location : List String) :
    Except Fault (Heap ProfileInstant × Trackers) :=
  match location with
  | [] => .error .sliceBoundsOutOfRange
  | l0 :: rest =>
    let trackers :=
      { trackers with markers := mapStore trackers.markers name ⟨now, l0, rest⟩ }
    trackers.SetProfile h now₁ now₂ name location

/-- `(*Trackers).GetProfile`: the struct copy `*profile`. -/
def Trackers.GetProfile (trackers : Trackers) (name : String) : ProfileState :=
  match trackers.profile name with
  | none => { Top := Slice.nil, Previous := Time.zero, lock := some Mutex.unlocked }
  | some profile => profile

/-- `(*Trackers).Reset`. -/
def Trackers.Reset (trackers : Trackers) (name : String) : Trackers :=
  { trackers with
    profile := mapStore trackers.profile name
      { Top := Slice.nil, Previous := Time.zero, lock := some Mutex.unlocked }
    locked := by
      intro n st hn
      simp only [mapStore] at hn
      split at hn
      · cases hn
        simp
      · exact trackers.locked n st hn }

/-- `(*Trackers).UnsetTracker`. -/
def Trackers.UnsetTracker (trackers : Trackers) (name : String) : Trackers :=
  { markers := mapDelete trackers.markers name
    profile := mapDelete trackers.profile name
    locked := by
      intro n st hn
      simp only [mapDelete] at hn
      split at hn
      · cases hn
      · exact trackers.locked n st hn }

/-- `(*Trackers).Unregister`. -/
def Trackers.Unregister (trackers : Trackers) : List String → Trackers
  | [] => trackers
  | tracker :: rest => (trackers.UnsetTracker tracker).Unregister rest

/-- `(*Trackers).Register`; `nows i` are the three readings of iteration `i`. -/
def Trackers.Register (h : Heap ProfileInstant) (trackers : Trackers)
    (nows : Nat → Time × Time × Time) :
    List String → Except Fault (Heap ProfileInstant × Trackers)
  | [] => .ok (h, trackers)
  | tracker :: rest =>
    match trackers.SetTracker h (nows 0).1 (nows 0).2.1 (nows 0).2.2 tracker ["register"] with
    | .error e => .error e
    | .ok (h', trackers') => trackers'.Register h' (fun i => nows (i + 1)) rest

/-- `(*Trackers).RegisterProfile`; `nows i` are the two readings of iteration `i`. -/
def Trackers.RegisterProfile (h : Heap ProfileInstant) (trackers : Trackers)
    (nows : Nat → Time × Time) :
    List String → Except Fault (Heap ProfileInstant × Trackers)
  | [] => .ok (h, trackers)
  | tracker :: rest =>
    match trackers.SetProfile h (nows 0).1 (nows 0).2 tracker ["register"] with
    | .error e => .error e
    | .ok (h', trackers') => trackers'.RegisterProfile h' (fun i => nows (i + 1)) rest

/-- `(*Trackers).GetTracker`. -/
def Trackers.GetTracker (trackers : Trackers) (name : String) : TrackerInstant × Bool :=
  match trackers.markers name with
  | none => (TrackerInstant.zero, false)
  | some value => (value, true)

/-- `(*Trackers).Overdue`; `now` is the reading of `time.Now()`, the subtraction
is `int64` arithmetic. -/
def Trackers.Overdue (trackers : Trackers) (now : Time) (name : String) (by_ : Int) :
    Bool × Bool :=
  let r := trackers.GetTracker name
  if !r.2 then (false, false)
  else
    let overdue := decide (Time.Unix r.1.Timestamp < wrap64 (Time.Unix now - by_))
    (overdue, true)

/-- The entry point through which a checkpoint reaches `SetTop` on the stored
`ProfileState`. -/
inductive Entry where
  | SetTracker
  | SetProfile
deriving DecidableEq, Repr

/-- A checkpoint with the clock readings taken while it is recorded: `now` is the
reading `SetTracker` stores in the instant (not taken through `SetProfile`), `now₁` and
`now₂` are the two readings of `SetTop`. A checkpoint taken at the one clock reading
`t` has `now = now₁ = now₂ = t`. -/
structure Checkpoint where
  entry : Entry
  now : Time
  now₁ : Time
  now₂ : Time
  state : String
  tags : List String
deriving DecidableEq, Repr

/-- Record one checkpoint on `name`. -/
def Trackers.checkpoint (h : Heap ProfileInstant) (trackers : Trackers) (name : String)
    (c : Checkpoint) : Except Fault (Heap ProfileInstant × Trackers) :=
  match c.entry with
  | .SetTracker => trackers.SetTracker h c.now c.now₁ c.now₂ name (c.state :: c.tags)
  | .SetProfile => trackers.SetProfile h c.now₁ c.now₂ name (c.state :: c.tags)

/-- Record a sequence of checkpoints on `name`, first to last. -/
def Trackers.checkpoints (h : Heap ProfileInstant) (trackers : Trackers) (name : String) :
    List Checkpoint → Except Fault (Heap ProfileInstant × Trackers)
  | [] => .ok (h, trackers)
  | c :: cs =>
    match trackers.checkpoint h name c with
    | .error e => .error e
    | .ok (h', trackers') => trackers'.checkpoints h' name cs

/-- One call `trackers.SetTracker(name, state, tags...)` together with the clock
readings it takes. -/
structure SetTrackerCall where
  name : String
  state : String
  tags : List String
  now : Time
  now₁ : Time
  now₂ : Time
deriving DecidableEq, Repr

/-- A sequence of `SetTracker` calls, first to last. -/
def Trackers.run (h : Heap ProfileInstant) (trackers : Trackers) :
    List SetTrackerCall → Except Fault (Heap ProfileInstant × Trackers)
  | [] => .ok (h, trackers)
  | c :: cs =>
    match trackers.SetTracker h c.now c.now₁ c.now₂ c.name (c.state :: c.tags) with
    | .error e => .error e
    | .ok (h', trackers') => trackers'.run h' cs

/-- `Tracker`: a name and a `*Trackers`, the address of a registry or nil. -/
structure Tracker where
  name : String
  ref : Option Nat
deriving DecidableEq, Repr

/-- The memory the handles point into: the registries by address and the backing
arrays of their timelines. -/
structure Mem where
  heap : Heap ProfileInstant
  regs : Nat → Trackers

/-- `(*Tracker).Set`. -/
def Tracker.Set (tracker : Tracker) (m : Mem) (now now₁ now₂ : Time)
    (location : List String) : Except Fault Mem :=
  match tracker.ref with
  | none => .ok m
  | some p =>
    match (m.regs p).SetTracker m.heap now now₁ now₂ tracker.name location with
    | .error e => .error e
    | .ok (h', trackers') => .ok ⟨h', fun q => if q = p then trackers' else m.regs q⟩

/-- `(*Trackers).Child`, for the registry at address `p`. -/
def Trackers.Child (p : Nat) (name : String) : Tracker := ⟨name, some p⟩

/-- A registry with nothing stored. -/
def Trackers.empty : Trackers := ⟨fun _ => none, fun _ => none, fun _ _ hn => nomatch hn⟩

/-- A heap with nothing allocated, whose runtime doubles capacities. -/
def Heap.fresh {α : Type} [Inhabited α] : Heap α := ⟨fun _ _ => default, 1, fun c _ => 2 * c⟩

/-- A registry whose only instant is "heartbeat", recorded at Unix second
`1700000000`. -/
def Trackers.heartbeat : Trackers :=
  ⟨mapStore (fun _ => none) "heartbeat" ⟨1700000000000000000, "register", []⟩, fun _ => none,
    fun _ _ hn => nomatch hn⟩

/-! ## logger.go -/

/-- `Logger`: `context` is a `[]string` header into the heap of strings. -/
structure Logger where
  context : Slice
  debug : Bool
deriving DecidableEq, Repr

/-- `Logger.Fork`. -/
def Logger.Fork (hs : Heap String) (logger : Logger) (context : String) :
    Heap String × Logger :=
  let r := hs.append logger.context [context]
  (r.1, { context := r.2, debug := false })

/-- `Logger.Context`: every segment followed by `": "`. -/
def Logger.Context (hs : Heap String) (logger : Logger) : String :=
  (hs.read logger.context).foldl (fun buffer context => buffer ++ (context ++ ": ")) ""

/-- A line handed to `log.Printf`: the rendered `Context()` and the message. The
rendering of the format string and its arguments is left to `fmt`. -/
structure LogLine where
  context : String
  formatted : String
deriving DecidableEq, Repr

/-- `Logger.Log`, writing to the sink `logs`. -/
def Logger.Log (hs : Heap String) (logs : List LogLine) (logger : Logger) (format : String) :
    List LogLine :=
  logs ++ [⟨logger.Context hs, format⟩]

/-- `Logger.Elog`. -/
def Logger.Elog (hs : Heap String) (logs : List LogLine) (logger : Logger) (format : String) :
    Heap String × List LogLine :=
  let r := logger.Fork hs "error"
  (r.1, r.2.Log r.1 logs format)

/-! ## metrics.go -/

/-- A `statsd.Client` as this package sees it: the connection it wraps and the two
fields `Connect` assigns. -/
structure Client where
  conn : Nat
  Namespace : String
  Tags : Slice
deriving DecidableEq, Repr

/-- `Metrics`: `client`, `waitGroup` and `lock` are pointers (nil is `none`), `tags` is
a `[]string` header. -/
structure Metrics where
  client : Option Client
  tags : Slice
  waitGroup : Option Nat
  lock : Option Nat
deriving DecidableEq, Repr

/-- The collaborators outside the package: name resolution, `statsd.New` (an error
text or a connection) and the result of a backend call, by method name (an error
text or nil). -/
structure Net where
  lookupIp : String → String
  statsdNew : String → Except String Nat
  call : String → Option String

/-- The process state the metrics facade works on: the heap of strings, the
counters of the allocated wait groups, the number of allocated locks, the
environment, `MetricsNamespace`, the collaborators and the log sink. -/
structure World where
  strs : Heap String
  wgs : Nat → Int
  nextWg : Nat
  nextLock : Nat
  env : String → String
  MetricsNamespace : String
  net : Net
  logs : List LogLine

/-- `LogErrors`; `env` is `os.Getenv`. -/
def LogErrors (env : String → String) : Bool :=
  let log := env "METRICS_LOG_ERRORS"
  log == "" || log == "y" || log == "true" || log == "yes"

/-- `Metrics.Fork`. -/
def Metrics.Fork (w : World) (m : Metrics) (tags : List String) : World × Metrics :=
  let lock := w.nextLock
  let waitGroup := w.nextWg
  let r := w.strs.append m.tags tags
  ({ w with
      strs := r.1
      nextLock := w.nextLock + 1
      nextWg := w.nextWg + 1
      wgs := fun a => if a = waitGroup then 0 else w.wgs a },
   { client := none, tags := r.2, lock := some lock, waitGroup := some waitGroup })

/-- `GetDatadogDns`. -/
def GetDatadogDns (env : String → String) : String :=
  let dns := env "DATADOG_DNS"
  if dns == "" then "metrics-datadog.default.svc.cluster.local" else dns

/-- `(*Metrics).Connect`; the last component is the returned error. -/
def Metrics.Connect (w : World) (m : Metrics) : World × Metrics × Option String :=
  let (w, m) :=
    match m.lock with
    | none => ({ w with nextLock := w.nextLock + 1 }, { m with lock := some w.nextLock })
    | some _ => (w, m)
  let (w, m) :=
    match m.waitGroup with
    | none =>
      ({ w with nextWg := w.nextWg + 1, wgs := fun a => if a = w.nextWg then 0 else w.wgs a },
       { m with waitGroup := some w.nextWg })
    | some _ => (w, m)
  let dns := GetDatadogDns w.env
  if dns == "" then (w, m, some "Datadog dns is empty")
  else
    let addr := w.net.lookupIp dns
    match w.net.statsdNew (addr ++ ":8125") with
    | .error err => (w, m, some ("new statsd: " ++ err))
    | .ok conn =>
      (w, { m with client := some ⟨conn, w.MetricsNamespace, m.tags⟩ }, none)

/-- `(*Metrics).Client`. -/
def Metrics.Client (m : Metrics) : Except Fault (Option LogContext.Client) :=
  match m.lock with
  | none => .error .nilDereference
  | some _ => .ok m.client

/-- `(*Metrics).Conn`; the last component is the returned pair, an error or the
client. -/
def Metrics.Conn (w : World) (m : Metrics) :
    Except Fault (World × Metrics × Except String (Option LogContext.Client)) :=
  match m.Client with
  | .error f => .error f
  | .ok (some client) => .ok (w, m, .ok (some client))
  | .ok none =>
    match m.Connect w with
    | (w', m', some err) => .ok (w', m', .error ("retrieve connection: " ++ err))
    | (w', m', none) =>
      match m'.Client with
      | .error f => .error f
      | .ok client => .ok (w', m', .ok client)

/-! ## context.go -/

/-- A value of the interface `context.Context`: nil, a context of the standard
library (by identity), or a `*Context` of this package (by address). -/
inductive CtxValue where
  | nil
  | std (id : Nat)
  | ptr (p : Nat)
deriving DecidableEq, Repr

set_option linter.dupNamespace false in
/-- `Context`. `ManagerId` is a pointer, `Triggers` a slice header. -/
structure Context where
  Name : String
  ManagerId : Option Nat
  Context : CtxValue
  Logger : Logger
  Tracker : Tracker
  Triggers : Slice
  Metrics : Metrics
deriving DecidableEq, Repr

/-- `(*Context).Fork`, called on the `Context` at address `p` of the memory `ctxs`. -/
def Context.Fork (hs : Heap String) (ctxs : Nat → LogContext.Context) (p : Nat)
    (name : String) : Heap String × LogContext.Context :=
  let copy := ctxs p
  let copy := { copy with Context := CtxValue.ptr p }
  let copy := { copy with Name := name }
  let r := copy.Logger.Fork hs name
  (r.1, { copy with Logger := r.2 })

/-- `Context.Done` (and likewise `Deadline`, `Err`, `Value`): the context of the
standard library the call ends up in, `0` being `context.Background()`. The fuel
bounds the chain of `*Context` values that is followed. -/
def Context.Done (ctxs : Nat → LogContext.Context) :
    Nat → LogContext.Context → Option Nat
  | 0, _ => none
  | n + 1, ctx =>
    match ctx.Context with
    | .nil => some 0
    | .std id => some id
    | .ptr p => Context.Done ctxs n (ctxs p)

/-- `(*Context).SetTracker`. -/
def Context.SetTracker (context : LogContext.Context) (m : Mem) (now now₁ now₂ : Time)
    (location : List String) : Except Fault Mem :=
  context.Tracker.Set m now now₁ now₂ location

/-- `(*Context).Elog`. -/
def Context.Elog (w : World) (context : LogContext.Context) (format : String) : World :=
  let r := context.Logger.Elog w.strs w.logs format
  { w with strs := r.1, logs := r.2 }

/-- The common body of the twelve forwarding methods of `Metrics`: `label` is the
text put before the error, `method` the method of the client that is called. The
goroutine is run to completion. -/
def Metrics.emit (label method : String) (w : World) (m : Metrics) (ctx : Context) :
    Except Fault (World × Metrics) :=
  match m.waitGroup with
  | none => .error .nilDereference
  | some wg =>
    let w := { w with wgs := fun a => if a = wg then w.wgs a + 1 else w.wgs a }
    let done := fun (w : World) =>
      { w with wgs := fun a => if a = wg then w.wgs a - 1 else w.wgs a }
    match m.Conn w with
    | .error f => .error f
    | .ok (w, m, .error err) =>
      let w := if !LogErrors w.env then ctx.Elog w (label ++ ": " ++ err) else w
      .ok (done w, m)
    | .ok (w, m, .ok _client) =>
      match w.net.call method with
      | some err =>
        let w := if !LogErrors w.env then ctx.Elog w (label ++ ": " ++ err) else w
        .ok (done w, m)
      | none => .ok (done w, m)

/-- `(*Metrics).Gauge`. -/
def Metrics.Gauge := Metrics.emit "gauge" "Gauge"

/-- `(*Metrics).Count`. -/
def Metrics.Count := Metrics.emit "count" "Count"

/-- `(*Metrics).Histogram`. -/
def Metrics.Histogram := Metrics.emit "histogram" "Histogram"

/-- `(*Metrics).Distribution`. -/
def Metrics.Distribution := Metrics.emit "distribution" "Distribution"

/-- `(*Metrics).Incr`. -/
def Metrics.Incr := Metrics.emit "incr" "Incr"

/-- `(*Metrics).Decr`. -/
def Metrics.Decr := Metrics.emit "decr" "Decr"

/-- `(*Metrics).Set`. -/
def Metrics.Set := Metrics.emit "set" "Set"

/-- `(*Metrics).Timing`. -/
def Metrics.Timing := Metrics.emit "timing" "Timing"

/-- `(*Metrics).TimeInMilliseconds`. -/
def Metrics.TimeInMilliseconds := Metrics.emit "timing milliseconds" "TimeInMilliseconds"

/-- `(*Metrics).Event`. -/
def Metrics.Event := Metrics.emit "event" "Event"

/-- `(*Metrics).SimpleEvent`. -/
def Metrics.SimpleEvent := Metrics.emit "simple event" "SimpleEvent"

/-- `(*Metrics).ServiceCheck`. -/
def Metrics.ServiceCheck := Metrics.emit "service check" "ServiceCheck"

/-! ## Sample states -/

/-- A world in which `METRICS_LOG_ERRORS` has the value `logErrors` (empty when
unset), no backend can be reached, one wait group and one lock are allocated and
the array at address `1` holds the segment "root". -/
def World.sample (logErrors : String) : World where
  strs := (Heap.fresh.append Slice.nil ["root"]).1
  wgs := fun _ => 0
  nextWg := 1
  nextLock := 1
  env := fun k => if k = "METRICS_LOG_ERRORS" then logErrors else ""
  MetricsNamespace := ""
  net := ⟨fun dns => dns, fun _ => .error "connection refused", fun _ => none⟩
  logs := []

/-- A `Metrics` as `NewMetrics` leaves it when the connection failed. -/
def Metrics.sample : Metrics := ⟨none, Slice.nil, some 0, some 0⟩

/-- A root `Context` named "root" whose logger has the one segment "root". -/
def Context.sample : LogContext.Context where
  Name := "root"
  ManagerId := none
  Context := CtxValue.nil
  Logger := ⟨(Heap.fresh.append (Slice.nil) ["root"] : Heap String × Slice).2, false⟩
  Tracker := ⟨"root", none⟩
  Triggers := Slice.nil
  Metrics := Metrics.sample

/-! ## Reference timeline -/

/-- The timeline a sequence of checkpoints is expected to leave: every entry but
the last carries the time from its checkpoint to the next one, the last carries
none. -/
def timeline : List Checkpoint → List ProfileInstant
  | [] => []
  | [c] => [⟨0, c.state, c.tags⟩]
  | c :: c' :: cs => ⟨c'.now₁ - c.now₂, c.state, c.tags⟩ :: timeline (c' :: cs)

/-- The last entry of a timeline gets the elapsed time `d`. -/
def closeLast (d : Duration) : List ProfileInstant → List ProfileInstant
  | [] => []
  | [x] => [{ x with Timestamp := d }]
  | x :: y :: l => x :: closeLast d (y :: l)

/-! ## Facts about slices -/

theorem Heap.length_read {α : Type} (h : Heap α) (s : Slice) : (h.read s).length = s.len := by
  simp [Heap.read]

theorem map_range_getD {α : Type} [Inhabited α] (xs : List α) :
    (List.range xs.length).map (fun i => xs.getD i default) = xs := by
  apply List.ext_getElem
  · simp
  · intro i h₁ h₂
    simp [List.getD_eq_getElem?_getD, List.getElem?_eq_getElem h₂]

theorem Heap.read_append {α : Type} [Inhabited α] (h : Heap α) (s : Slice) (xs : List α) :
    (h.append s xs).1.read (h.append s xs).2 = h.read s ++ xs := by
  unfold Heap.append
  by_cases hc : s.len + xs.length ≤ s.cap
  · simp only [hc, if_true, Heap.read]
    rw [List.range_add, List.map_append, List.map_map]
    congr 1
    · apply List.map_congr_left
      intro j hj
      have : j < s.len := List.mem_range.mp hj
      have h' : ¬ (s.len ≤ j) := by omega
      simp [h']
    · conv_rhs => rw [← map_range_getD xs]
      apply List.map_congr_left
      intro j hj
      have : j < xs.length := List.mem_range.mp hj
      simp [this]
  · simp only [hc, if_false, Heap.read]
    rw [List.range_add, List.map_append, List.map_map]
    congr 1
    · apply List.map_congr_left
      intro j hj
      have : j < s.len := List.mem_range.mp hj
      simp [this]
    · conv_rhs => rw [← map_range_getD xs]
      apply List.map_congr_left
      intro j hj
      simp

theorem Heap.read_append_old {α : Type} [Inhabited α] (h : Heap α) (s : Slice) (xs : List α) :
    (h.append s xs).1.read s = h.read s := by
  unfold Heap.append
  by_cases hc : s.len + xs.length ≤ s.cap
  · simp only [hc, if_true, Heap.read]
    apply List.map_congr_left
    intro j hj
    have : j < s.len := List.mem_range.mp hj
    have h' : ¬ (s.len ≤ j) := by omega
    simp [h']
  · simp only [hc, if_false, Heap.read]
    apply List.map_congr_left
    intro j hj
    have : j < s.len := List.mem_range.mp hj
    by_cases hb : s.arr = h.next
    · simp [hb, this]
    · simp [hb]

theorem closeLast_snoc (d : Duration) (l : List ProfileInstant) (x : ProfileInstant) :
    closeLast d (l ++ [x]) = l ++ [{ x with Timestamp := d }] := by
  induction l with
  | nil => rfl
  | cons a l ih =>
    cases l with
    | nil => rfl
    | cons b l =>
      show a :: closeLast d ((b :: l) ++ [x]) = a :: ((b :: l) ++ [{ x with Timestamp := d }])
      rw [ih]

theorem Heap.read_store_last (h : Heap ProfileInstant) (s : Slice) (d : Duration)
    (hpos : s.len > 0) :
    (h.store s.arr (s.len - 1) { h.cells s.arr (s.len - 1) with Timestamp := d }).read s
      = closeLast d (h.read s) := by
  obtain ⟨arr, len, cap⟩ := s
  obtain ⟨n, rfl⟩ : ∃ n, len = n + 1 := ⟨len - 1, by simp at hpos; omega⟩
  simp only [Heap.read, Heap.store, List.range_succ, List.map_append, List.map_cons,
    List.map_nil, Nat.add_sub_cancel, closeLast_snoc]
  congr 1
  · apply List.map_congr_left
    intro j hj
    have : j < n := List.mem_range.mp hj
    have h' : j ≠ n := by omega
    simp [h']

/-! ## Facts about the timeline -/

theorem SetTop_read (h : Heap ProfileInstant) (state : ProfileState) (now₁ now₂ : Time)
    (name l0 : String) (rest : List String) (hlock : state.lock ≠ none) :
    ∃ h' state', state.SetTop h now₁ now₂ name (l0 :: rest) = .ok (h', state') ∧
      h'.read state'.Top
        = closeLast (now₁ - state.Previous) (h.read state.Top) ++ [⟨0, l0, rest⟩] ∧
      state'.Previous = now₂ := by
  cases hl : state.lock with
  | none => exact absurd hl hlock
  | some mu =>
    simp only [ProfileState.SetTop, hl]
    refine ⟨_, _, rfl, ?_, rfl⟩
    simp only [Heap.read_append, Time.Sub]
    by_cases hpos : state.Top.len > 0
    · simp only [hpos, if_true, Heap.read_store_last h state.Top _ hpos]
    · have h0 : state.Top.len = 0 := by omega
      simp [hpos, Heap.read, h0, closeLast]

theorem SetProfile_none (h : Heap ProfileInstant) (tr : Trackers) (now₁ now₂ : Time)
    (name : String) (location : List String) (hload : tr.profile name = none) :
    tr.SetProfile h now₁ now₂ name location = .ok (h, tr) := by
  unfold Trackers.SetProfile
  split
  · rfl
  · next profile hp =>
    rw [hload] at hp
    cases hp

theorem SetProfile_some (h h' : Heap ProfileInstant) (tr : Trackers) (now₁ now₂ : Time)
    (name : String) (location : List String) (st st' : ProfileState)
    (hload : tr.profile name = some st)
    (hset : st.SetTop h now₁ now₂ name location = .ok (h', st')) :
    ∃ tr', tr.SetProfile h now₁ now₂ name location = .ok (h', tr') ∧
      tr'.markers = tr.markers ∧ tr'.profile = mapStore tr.profile name st' := by
  unfold Trackers.SetProfile
  split
  · next hp =>
    rw [hload] at hp
    cases hp
  · next profile hp =>
    rw [hload] at hp
    cases hp
    split
    · next e he =>
      rw [hset] at he
      cases he
    · next h'' st'' he =>
      rw [hset] at he
      cases he
      exact ⟨_, rfl, rfl, rfl⟩

theorem timeline_snoc (p : List Checkpoint) (c : Checkpoint) (prev : Time)
    (hprev : ∀ c0, p.getLast? = some c0 → prev = c0.now₂) :
    closeLast (c.now₁ - prev) (timeline p) ++ [⟨0, c.state, c.tags⟩] = timeline (p ++ [c]) := by
  induction p with
  | nil => rfl
  | cons a p ih =>
    cases p with
    | nil =>
      have : prev = a.now₂ := hprev a rfl
      subst this
      rfl
    | cons b p =>
      have hlast : ∀ c0, (b :: p).getLast? = some c0 → prev = c0.now₂ := by
        intro c0 hc0
        apply hprev
        rw [List.getLast?_cons_cons]
        exact hc0
      have ih' := ih hlast
      cases p with
      | nil =>
        simp only [timeline, closeLast, List.cons_append, List.nil_append] at ih' ⊢
        rw [ih']
      | cons b' p =>
        simp only [timeline, closeLast, List.cons_append] at ih' ⊢
        rw [ih']

theorem length_timeline (cs : List Checkpoint) : (timeline cs).length = cs.length := by
  induction cs with
  | nil => rfl
  | cons a cs ih =>
    cases cs with
    | nil => rfl
    | cons b cs => simp only [timeline, List.length_cons] at ih ⊢; rw [ih]

theorem timeline_getElem? (cs : List Checkpoint) (i : Nat) (c : Checkpoint)
    (hc : cs[i]? = some c) :
    ∃ e, (timeline cs)[i]? = some e ∧ e.State = c.state ∧ e.Tags = c.tags ∧
      (∀ c', cs[i + 1]? = some c' → e.Timestamp = c'.now₁ - c.now₂) ∧
      (cs[i + 1]? = none → e.Timestamp = 0) := by
  induction cs generalizing i with
  | nil => simp at hc
  | cons a cs ih =>
    cases cs with
    | nil =>
      cases i with
      | zero =>
        simp at hc
        subst hc
        exact ⟨⟨0, a.state, a.tags⟩, by simp [timeline], rfl, rfl, by simp, by simp⟩
      | succ i => simp at hc
    | cons b cs =>
      cases i with
      | zero =>
        simp at hc
        subst hc
        exact ⟨⟨b.now₁ - a.now₂, a.state, a.tags⟩, by simp [timeline], rfl, rfl, by simp,
          by simp⟩
      | succ i =>
        have hc' : (b :: cs)[i]? = some c := by simpa using hc
        obtain ⟨e, h1, h2, h3, h4, h5⟩ := ih i hc'
        exact ⟨e, by simpa [timeline] using h1, h2, h3, by simpa using h4, by simpa using h5⟩

theorem checkpoint_profile (h : Heap ProfileInstant) (tr : Trackers) (name : String)
    (c : Checkpoint) (st : ProfileState) (hst : tr.profile name = some st) :
    ∃ h' tr' st', tr.checkpoint h name c = .ok (h', tr') ∧ tr'.profile name = some st' ∧
      h'.read st'.Top
        = closeLast (c.now₁ - st.Previous) (h.read st.Top) ++ [⟨0, c.state, c.tags⟩] ∧
      st'.Previous = c.now₂ := by
  obtain ⟨h', st', hok, hread, hprev⟩ :=
    SetTop_read h st c.now₁ c.now₂ name c.state c.tags (tr.locked name st hst)
  cases hent : c.entry with
  | SetTracker =>
    obtain ⟨tr', hok', _, hp'⟩ :=
      SetProfile_some h h' { tr with markers := mapStore tr.markers name ⟨c.now, c.state, c.tags⟩ }
        c.now₁ c.now₂ name (c.state :: c.tags) st st' hst hok
    refine ⟨h', tr', st', ?_, ?_, hread, hprev⟩
    · simp only [Trackers.checkpoint, hent, Trackers.SetTracker]
      exact hok'
    · simp [hp', mapStore]
  | SetProfile =>
    obtain ⟨tr', hok', _, hp'⟩ :=
      SetProfile_some h h' tr c.now₁ c.now₂ name (c.state :: c.tags) st st' hst hok
    refine ⟨h', tr', st', ?_, ?_, hread, hprev⟩
    · simp only [Trackers.checkpoint, hent]
      exact hok'
    · simp [hp', mapStore]

theorem checkpoints_timeline (name : String) (cs : List Checkpoint) :
    ∀ (p : List Checkpoint) (h : Heap ProfileInstant) (tr : Trackers) (st : ProfileState),
      tr.profile name = some st → h.read st.Top = timeline p →
      (∀ c0, p.getLast? = some c0 → st.Previous = c0.now₂) →
      ∃ h' tr' st', tr.checkpoints h name cs = .ok (h', tr') ∧
        tr'.profile name = some st' ∧ h'.read st'.Top = timeline (p ++ cs) := by
  induction cs with
  | nil =>
    intro p h tr st hst hread _
    exact ⟨h, tr, st, rfl, hst, by simpa using hread⟩
  | cons c cs ih =>
    intro p h tr st hst hread hprev
    obtain ⟨h1, tr1, st1, hok, hst1, hread1, hprev1⟩ := checkpoint_profile h tr name c st hst
    rw [hread, timeline_snoc p c st.Previous hprev] at hread1
    have hlast : ∀ c0, (p ++ [c]).getLast? = some c0 → st1.Previous = c0.now₂ := by
      intro c0 hc0
      simp at hc0
      rw [hprev1, hc0]
    obtain ⟨h2, tr2, st2, hok2, hst2, hread2⟩ := ih (p ++ [c]) h1 tr1 st1 hst1 hread1 hlast
    refine ⟨h2, tr2, st2, ?_, hst2, by simpa using hread2⟩
    simp only [Trackers.checkpoints, hok, hok2]

/-! ## Facts about the liveness instants -/

theorem SetTracker_ok (h : Heap ProfileInstant) (tr : Trackers) (now now₁ now₂ : Time)
    (name l0 : String) (rest : List String) :
    ∃ h' tr', tr.SetTracker h now now₁ now₂ name (l0 :: rest) = .ok (h', tr') ∧
      tr'.markers = mapStore tr.markers name ⟨now, l0, rest⟩ ∧
      (∀ n, tr.profile n = none → tr'.profile n = none) := by
  cases hp : tr.profile name with
  | none =>
    refine ⟨h, { tr with markers := mapStore tr.markers name ⟨now, l0, rest⟩ }, ?_, rfl,
      fun n hn => hn⟩
    simp only [Trackers.SetTracker]
    exact SetProfile_none h _ now₁ now₂ name (l0 :: rest) hp
  | some st =>
    obtain ⟨h', st', hok, _, _⟩ :=
      SetTop_read h st now₁ now₂ name l0 rest (tr.locked name st hp)
    obtain ⟨tr', hok', hm', hp'⟩ :=
      SetProfile_some h h' { tr with markers := mapStore tr.markers name ⟨now, l0, rest⟩ }
        now₁ now₂ name (l0 :: rest) st st' hp hok
    refine ⟨h', tr', ?_, hm', ?_⟩
    · simp only [Trackers.SetTracker]
      exact hok'
    · intro n hn
      have hne : n ≠ name := by
        intro he
        rw [he, hp] at hn
        exact Option.noConfusion hn
      simp [hp', mapStore, hne, hn]

theorem run_ok (calls : List SetTrackerCall) :
    ∀ (h : Heap ProfileInstant) (tr : Trackers),
      ∃ h' tr', tr.run h calls = .ok (h', tr') ∧
        (∀ n, (∀ d ∈ calls, d.name ≠ n) → tr'.markers n = tr.markers n) ∧
        (∀ n, tr.profile n = none → tr'.profile n = none) := by
  induction calls with
  | nil => intro h tr; exact ⟨h, tr, rfl, fun _ _ => rfl, fun _ hn => hn⟩
  | cons c cs ih =>
    intro h tr
    obtain ⟨h1, tr1, hok1, hm1, hp1⟩ :=
      SetTracker_ok h tr c.now c.now₁ c.now₂ c.name c.state c.tags
    obtain ⟨h2, tr2, hok2, hm2, hp2⟩ := ih h1 tr1
    refine ⟨h2, tr2, ?_, ?_, fun n hn => hp2 n (hp1 n hn)⟩
    · simp only [Trackers.run, hok1, hok2]
    · intro n hn
      have hc : c.name ≠ n := hn c (List.mem_cons_self _ _)
      rw [hm2 n (fun d hd => hn d (List.mem_cons_of_mem _ hd)), hm1]
      simp [mapStore, Ne.symm hc]

theorem run_append (a b : List SetTrackerCall) :
    ∀ (h : Heap ProfileInstant) (tr : Trackers),
      tr.run h (a ++ b) =
        match tr.run h a with
        | .error e => .error e
        | .ok (h', tr') => tr'.run h' b := by
  induction a with
  | nil => intro h tr; rfl
  | cons c cs ih =>
    intro h tr
    simp only [List.cons_append, Trackers.run]
    cases tr.SetTracker h c.now c.now₁ c.now₂ c.name (c.state :: c.tags) with
    | error e => rfl
    | ok r => exact ih r.1 r.2

theorem run_last (h : Heap ProfileInstant) (tr : Trackers) (pre post : List SetTrackerCall)
    (c : SetTrackerCall) (hpost : ∀ d ∈ post, d.name ≠ c.name) :
    ∃ h' tr', tr.run h (pre ++ c :: post) = .ok (h', tr') ∧
      tr'.markers c.name = some ⟨c.now, c.state, c.tags⟩ ∧
      (∀ n, tr.profile n = none → tr'.profile n = none) := by
  obtain ⟨h1, tr1, hok1, _, hp1⟩ := run_ok pre h tr
  obtain ⟨h2, tr2, hok2, hm2, hp2⟩ :=
    SetTracker_ok h1 tr1 c.now c.now₁ c.now₂ c.name c.state c.tags
  obtain ⟨h3, tr3, hok3, hm3, hp3⟩ := run_ok post h2 tr2
  refine ⟨h3, tr3, ?_, ?_, fun n hn => hp3 n (hp2 n (hp1 n hn))⟩
  · rw [run_append, hok1]
    simp only [Trackers.run, hok2, hok3]
  · rw [hm3 c.name hpost, hm2]
    simp [mapStore]

theorem wrap64_of_range (x : Int) (hlo : -9223372036854775808 ≤ x)
    (hhi : x < 9223372036854775808) : wrap64 x = x := by
  unfold wrap64
  omega

theorem Overdue_found (tr : Trackers) (now : Time) (name : String) (by_ : Int)
    (v : TrackerInstant) (hv : tr.GetTracker name = (v, true))
    (hlo : -9223372036854775808 ≤ Time.Unix now - by_)
    (hhi : Time.Unix now - by_ < 9223372036854775808) :
    tr.Overdue now name by_ = (decide (Time.Unix now - by_ > Time.Unix v.Timestamp), true) := by
  simp only [Trackers.Overdue, hv, wrap64_of_range _ hlo hhi]
  simp

/-! ## Facts about profile states -/

theorem RegisterProfile_absent (names : List String) :
    ∀ (h : Heap ProfileInstant) (tr : Trackers) (nows : Nat → Time × Time),
      (∀ n ∈ names, tr.profile n = none) → tr.RegisterProfile h nows names = .ok (h, tr) := by
  induction names with
  | nil => intro h tr nows _; rfl
  | cons n names ih =>
    intro h tr nows hnone
    have hn : tr.profile n = none := hnone n (List.mem_cons_self _ _)
    simp only [Trackers.RegisterProfile, SetProfile_none h tr _ _ n _ hn]
    exact ih h tr _ (fun k hk => hnone k (List.mem_cons_of_mem _ hk))

theorem snapshot_after_SetTop (h : Heap ProfileInstant) (state : ProfileState)
    (now₁ now₂ : Time) (name l0 : String) (rest : List String) (hlock : state.lock ≠ none)
    (hpos : state.Top.len > 0) :
    ∃ h' state', state.SetTop h now₁ now₂ name (l0 :: rest) = .ok (h', state') ∧
      h'.read state.Top = closeLast (now₁ - state.Previous) (h.read state.Top) := by
  cases hl : state.lock with
  | none => exact absurd hl hlock
  | some mu =>
    simp only [ProfileState.SetTop, hl]
    refine ⟨_, _, rfl, ?_⟩
    simp only [Heap.read_append_old, hpos, if_true, Time.Sub,
      Heap.read_store_last h state.Top _ hpos]

/-! ## Facts about the metrics facade -/

theorem Connect_frame (w : World) (m : Metrics) :
    (m.Connect w).1.logs = w.logs ∧ (m.Connect w).1.env = w.env := by
  unfold Metrics.Connect
  cases hl : m.lock <;> cases hw : m.waitGroup <;> simp only [hl, hw] <;> split <;>
    first
      | exact ⟨rfl, rfl⟩
      | (split <;> exact ⟨rfl, rfl⟩)

theorem Conn_frame (w w' : World) (m m' : Metrics)
    (r : Except String (Option LogContext.Client)) (hok : m.Conn w = .ok (w', m', r)) :
    w'.logs = w.logs ∧ w'.env = w.env := by
  unfold Metrics.Conn at hok
  have hframe := Connect_frame w m
  cases hcl : m.Client with
  | error f => simp [hcl] at hok
  | ok oc =>
    cases oc with
    | some c =>
      simp only [hcl] at hok
      cases hok
      exact ⟨rfl, rfl⟩
    | none =>
      simp only [hcl] at hok
      generalize m.Connect w = x at hok hframe
      obtain ⟨w1, m1, e⟩ := x
      cases e with
      | some err =>
        cases hok
        exact hframe
      | none =>
        cases hc1 : m1.Client with
        | error f => simp [hc1] at hok
        | ok oc1 =>
          simp only [hc1] at hok
          cases hok
          exact hframe

theorem emit_logs_of_LogErrors (label method : String) (w w' : World) (m m' : Metrics)
    (ctx : LogContext.Context) (hlog : LogErrors w.env = true)
    (hok : Metrics.emit label method w m ctx = .ok (w', m')) : w'.logs = w.logs := by
  unfold Metrics.emit at hok
  cases hwg : m.waitGroup with
  | none => simp [hwg] at hok
  | some wg =>
    simp only [hwg] at hok
    cases hconn : m.Conn { w with wgs := fun a => if a = wg then w.wgs a + 1 else w.wgs a } with
    | error f => simp [hconn] at hok
    | ok x =>
      obtain ⟨w1, m1, r⟩ := x
      obtain ⟨hl1, he1⟩ := Conn_frame _ _ _ _ _ hconn
      have hlog1 : LogErrors w1.env = true := by rw [he1]; exact hlog
      simp only [hconn] at hok
      cases r with
      | error err =>
        simp only [hlog1] at hok
        cases hok
        exact hl1
      | ok c =>
        simp only at hok
        cases hcall : w1.net.call method with
        | none =>
          simp only [hcall] at hok
          cases hok
          exact hl1
        | some err =>
          simp only [hcall, hlog1] at hok
          cases hok
          exact hl1

/-! ## Facts about the logger -/

theorem Logger_Fork_Context (hs : Heap String) (logger : Logger) (context : String) :
    (logger.Fork hs context).2.Context (logger.Fork hs context).1
      = logger.Context hs ++ (context ++ ": ") := by
  simp [Logger.Fork, Logger.Context, Heap.read_append, List.foldl_append]

theorem Logger_Fork_frame (hs : Heap String) (logger : Logger) (context : String) :
    logger.Context (logger.Fork hs context).1 = logger.Context hs := by
  simp [Logger.Fork, Logger.Context, Heap.read_append_old]

/-! ## Facts about faults -/

theorem SetTracker_fault (h : Heap ProfileInstant) (tr : Trackers) (now now₁ now₂ : Time)
    (name : String) (location : List String) :
    (location = [] ∧
        tr.SetTracker h now now₁ now₂ name location = .error .sliceBoundsOutOfRange) ∨
      (location ≠ [] ∧ ∃ r, tr.SetTracker h now now₁ now₂ name location = .ok r) := by
  cases location with
  | nil => exact Or.inl ⟨rfl, rfl⟩
  | cons l0 rest =>
    obtain ⟨h', tr', hok, _⟩ := SetTracker_ok h tr now now₁ now₂ name l0 rest
    exact Or.inr ⟨by simp, (h', tr'), hok⟩

/-! ## Claims -/

/-- C1: after `Reset(name)`, recording checkpoints `c₀, ..., cₙ₋₁` on `name` through
`SetTracker` or `SetProfile` (hence `SetTop`) succeeds and leaves a timeline `Top` of
length `n` in which entry `i` has the state (and tags) of checkpoint `i`; its elapsed
is, when a checkpoint follows, the reading with which `SetTop` of checkpoint `i + 1`
starts minus the reading `SetTop` of checkpoint `i` kept as `Previous`, which is
`tᵢ₊₁ - tᵢ` for checkpoints taken at the clock readings `tᵢ`; the elapsed of the last
entry is zero (unset). It holds for all readings, in particular for strictly
increasing ones. -/
theorem C1_timeline_of_checkpoints (h : Heap ProfileInstant) (tr : Trackers) (name : String)
    (cs : List Checkpoint) :
    ∃ h' tr', (tr.Reset name).checkpoints h name cs = .ok (h', tr') ∧
      (h'.read (tr'.GetProfile name).Top).length = cs.length ∧
      ∀ i c, cs[i]? = some c →
        ∃ e, (h'.read (tr'.GetProfile name).Top)[i]? = some e ∧
          e.State = c.state ∧ e.Tags = c.tags ∧
          (∀ c', cs[i + 1]? = some c' → e.Timestamp = c'.now₁ - c.now₂) ∧
          (cs[i + 1]? = none → e.Timestamp = 0) := by
  obtain ⟨h', tr', st', hok, hst, hread⟩ :=
    checkpoints_timeline name cs [] h (tr.Reset name)
      ⟨Slice.nil, Time.zero, some Mutex.unlocked⟩
      (by simp [Trackers.Reset, mapStore]) rfl (by simp)
  have hget : tr'.GetProfile name = st' := by simp [Trackers.GetProfile, hst]
  refine ⟨h', tr', hok, ?_, ?_⟩
  · rw [hget, hread]
    simpa using length_timeline cs
  · intro i c hc
    rw [hget, hread]
    simpa using timeline_getElem? cs i c hc

/-- C2: in any sequence of `SetTracker` calls (each with a state and any tags) in
which `c` is the last call on its name, whatever the calls on other names before
and after it, the sequence completes and `GetTracker` on that name then returns
found, with the clock reading, the state and the tags of `c`. -/
theorem C2_last_write_wins (h : Heap ProfileInstant) (tr : Trackers)
    (pre post : List SetTrackerCall) (c : SetTrackerCall)
    (hpost : ∀ d ∈ post, d.name ≠ c.name) :
    ∃ h' tr', tr.run h (pre ++ c :: post) = .ok (h', tr') ∧
      tr'.GetTracker c.name = (⟨c.now, c.state, c.tags⟩, true) := by
  obtain ⟨h', tr', hok, hm, _⟩ := run_last h tr pre post c hpost
  exact ⟨h', tr', hok, by simp [Trackers.GetTracker, hm]⟩

/-- Witness of C2: two calls on "a" around a call on "b", then a call on "c". -/
theorem C2_last_write_wins_witness :
    ∃ h' tr', Trackers.empty.run Heap.fresh
        ([⟨"a", "start", [], 1, 1, 1⟩, ⟨"b", "x", [], 2, 2, 2⟩]
          ++ ⟨"a", "beat", ["t"], 3, 3, 3⟩ :: [⟨"c", "y", [], 4, 4, 4⟩]) = .ok (h', tr') ∧
      tr'.GetTracker "a" = (⟨3, "beat", ["t"]⟩, true) :=
  C2_last_write_wins Heap.fresh Trackers.empty
    [⟨"a", "start", [], 1, 1, 1⟩, ⟨"b", "x", [], 2, 2, 2⟩] [⟨"c", "y", [], 4, 4, 4⟩]
    ⟨"a", "beat", ["t"], 3, 3, 3⟩ (by decide)

/-- C3, as stated, fails: the threshold `T = -2^63` is an `int64`, the name has an
instant recorded at second `1700000000`, the clock reads second `1700000100`, so
`now - T > lastTimestamp`, but `now - T` wraps around in `int64` and `Overdue`
reports "known, not overdue". -/
theorem C3_counterexample :
    Trackers.heartbeat.GetTracker "heartbeat"
        = (⟨1700000000000000000, "register", []⟩, true) ∧
      Trackers.heartbeat.Overdue 1700000100000000000 "heartbeat" (-9223372036854775808)
        = (false, true) ∧
      Time.Unix 1700000100000000000 - (-9223372036854775808)
        > Time.Unix 1700000000000000000 := by
  decide

/-- C3, amended: with times taken in whole Unix seconds, whenever `now - T` is
representable as an `int64`, a name with a recorded instant gets a known result whose
overdue flag is true exactly when `now - T > lastTimestamp`; in particular right
after a `SetTracker` call (the clock still in the second of that call) with `T ≥ 0`
the flag is false. A name with no recorded instant gets "unknown" for every `T`. -/
theorem C3_overdue (tr : Trackers) (now : Time) (name : String) (by_ : Int) :
    (-9223372036854775808 ≤ Time.Unix now - by_ → Time.Unix now - by_ < 9223372036854775808 →
      (∀ v, tr.GetTracker name = (v, true) →
        (tr.Overdue now name by_).2 = true ∧
        ((tr.Overdue now name by_).1 = true ↔ Time.Unix now - by_ > Time.Unix v.Timestamp)) ∧
      (∀ h nowSet now₁ now₂ l0 rest, 0 ≤ by_ → Time.Unix now = Time.Unix nowSet →
        ∃ h' tr', tr.SetTracker h nowSet now₁ now₂ name (l0 :: rest) = .ok (h', tr') ∧
          tr'.Overdue now name by_ = (false, true))) ∧
    ((tr.GetTracker name).2 = false → tr.Overdue now name by_ = (false, false)) := by
  refine ⟨fun hlo hhi => ⟨?_, ?_⟩, ?_⟩
  · intro v hv
    rw [Overdue_found tr now name by_ v hv hlo hhi]
    simp
  · intro h nowSet now₁ now₂ l0 rest hby hsec
    obtain ⟨h', tr', hok, hm, _⟩ := SetTracker_ok h tr nowSet now₁ now₂ name l0 rest
    refine ⟨h', tr', hok, ?_⟩
    have hv : tr'.GetTracker name = (⟨nowSet, l0, rest⟩, true) := by
      simp [Trackers.GetTracker, hm, mapStore]
    rw [Overdue_found tr' now name by_ _ hv hlo hhi]
    have : ¬ (Time.Unix nowSet < Time.Unix now - by_) := by omega
    simp [this]
  · intro hnone
    simp [Trackers.Overdue, hnone]

/-- Witness of C3: "heartbeat" recorded at second `0` is overdue by `60` at second
`61`, not overdue right after a call, and an unknown name is unknown. -/
theorem C3_overdue_witness :
    (Trackers.heartbeat.Overdue 1700000061000000000 "heartbeat" 60).1 = true ∧
      (∃ h' tr', Trackers.empty.SetTracker Heap.fresh 61000000000 0 0 "heartbeat" ["register"]
          = .ok (h', tr') ∧ tr'.Overdue 61000000000 "heartbeat" 60 = (false, true)) ∧
      Trackers.empty.Overdue 61000000000 "heartbeat" 60 = (false, false) :=
  ⟨(((C3_overdue Trackers.heartbeat 1700000061000000000 "heartbeat" 60).1
      (by decide) (by decide)).1 ⟨1700000000000000000, "register", []⟩ (by decide)).2.mpr
      (by decide),
    ((C3_overdue Trackers.empty 61000000000 "heartbeat" 60).1 (by decide) (by decide)).2
      Heap.fresh 61000000000 0 0 "register" [] (by decide) rfl,
    (C3_overdue Trackers.empty 61000000000 "heartbeat" 60).2 (by decide)⟩

/-- C4, as stated, fails: after `Unregister(["heartbeat"])` a `SetTracker` call on
"heartbeat" is recorded, and `GetTracker` returns it as found. -/
theorem C4_counterexample :
    (((Trackers.heartbeat.Unregister ["heartbeat"]).SetTracker Heap.fresh 5 5 5
        "heartbeat" ["alive"]).toOption.map fun r => r.2.GetTracker "heartbeat")
      = some (⟨5, "alive", []⟩, true) := by
  decide

/-- C4, amended: right after `Unregister([name])` the name has no instant
(`GetTracker` returns "not found") and no `ProfileState`. `SetTracker` is an upsert:
after any following sequence of `SetTracker` calls whose last call `c` is on that
name, `GetTracker` returns found with the reading, state and tags of `c`, and so it
does after `Tracker.Set` through a handle on the registry; what stays ignored is the
profiling checkpoint, the name still has no `ProfileState` (its timeline is empty). -/
theorem C4_set_after_unregister (h : Heap ProfileInstant) (tr : Trackers)
    (pre : List SetTrackerCall) (c : SetTrackerCall) :
    ((tr.Unregister [c.name]).GetTracker c.name).2 = false ∧
      (tr.Unregister [c.name]).profile c.name = none ∧
      (∃ h' tr', (tr.Unregister [c.name]).run h (pre ++ [c]) = .ok (h', tr') ∧
        tr'.GetTracker c.name = (⟨c.now, c.state, c.tags⟩, true) ∧
        tr'.profile c.name = none ∧ h'.read (tr'.GetProfile c.name).Top = []) ∧
      (∀ (regs : Nat → Trackers) (p : Nat), regs p = tr.Unregister [c.name] →
        ∃ m', Tracker.Set (Trackers.Child p c.name) ⟨h, regs⟩ c.now c.now₁ c.now₂
            (c.state :: c.tags) = .ok m' ∧
          (m'.regs p).GetTracker c.name = (⟨c.now, c.state, c.tags⟩, true) ∧
          (m'.regs p).profile c.name = none) := by
  have hprof : (tr.Unregister [c.name]).profile c.name = none := by
    simp [Trackers.Unregister, Trackers.UnsetTracker, mapDelete]
  refine ⟨?_, hprof, ?_, ?_⟩
  · simp [Trackers.Unregister, Trackers.UnsetTracker, mapDelete, Trackers.GetTracker]
  · obtain ⟨h', tr', hok, hm, hp⟩ :=
      run_last h (tr.Unregister [c.name]) pre [] c (by simp)
    have hp' := hp c.name hprof
    exact ⟨h', tr', hok, by simp [Trackers.GetTracker, hm], hp',
      by simp [Trackers.GetProfile, hp', Heap.read, Slice.nil]⟩
  · intro regs p hregs
    obtain ⟨h', tr', hok, hm, hp⟩ :=
      SetTracker_ok h (tr.Unregister [c.name]) c.now c.now₁ c.now₂ c.name c.state c.tags
    refine ⟨⟨h', fun q => if q = p then tr' else regs q⟩, ?_, ?_, ?_⟩
    · simp only [Tracker.Set, Trackers.Child, hregs, hok]
    · simp [Trackers.GetTracker, hm, mapStore]
    · simpa using hp c.name hprof

/-- Witness of C4: after unregistering "heartbeat", a handle on the registry at
address `0` records an instant again. -/
theorem C4_set_after_unregister_witness :
    ∃ m', Tracker.Set (Trackers.Child 0 "heartbeat")
        ⟨Heap.fresh, fun _ => Trackers.heartbeat.Unregister ["heartbeat"]⟩ 5 6 7
        ("alive" :: []) = .ok m' ∧
      (m'.regs 0).GetTracker "heartbeat" = (⟨5, "alive", []⟩, true) ∧
      (m'.regs 0).profile "heartbeat" = none :=
  (C4_set_after_unregister Heap.fresh Trackers.heartbeat [] ⟨"heartbeat", "alive", [], 5, 6, 7⟩).2.2.2
    (fun _ => Trackers.heartbeat.Unregister ["heartbeat"]) 0 rfl

/-- C5, the code at the failing input: on a registry where "job" has no
`ProfileState`, `RegisterProfile(["job"])` leaves "job" without one, and a following
`SetTracker` on "job" appends no checkpoint; on a registry where `Reset` gave "job" a
`ProfileState`, one `RegisterProfile` leaves a timeline of one "register" entry and a
second one leaves two. -/
theorem C5_RegisterProfile_at_failing_input :
    ((Trackers.empty.RegisterProfile Heap.fresh (fun _ => (1, 1)) ["job"]).toOption.map
        fun r => r.2.profile "job") = some none ∧
      (do
          let r ← Trackers.empty.RegisterProfile Heap.fresh (fun _ => (1, 1)) ["job"]
          let r' ← r.2.SetTracker r.1 2 2 2 "job" ["run"]
          pure (r'.1.read (r'.2.GetProfile "job").Top) : Except Fault _).toOption = some [] ∧
      (do
          let r ← (Trackers.empty.Reset "job").RegisterProfile Heap.fresh (fun _ => (1, 1)) ["job"]
          pure (r.1.read (r.2.GetProfile "job").Top) : Except Fault _).toOption
        = some [⟨0, "register", []⟩] ∧
      (do
          let r ← (Trackers.empty.Reset "job").RegisterProfile Heap.fresh (fun _ => (1, 1)) ["job"]
          let r' ← r.2.RegisterProfile r.1 (fun _ => (4, 4)) ["job"]
          pure (r'.1.read (r'.2.GetProfile "job").Top) : Except Fault _).toOption
        = some [⟨3, "register", []⟩, ⟨0, "register", []⟩] := by
  decide

/-- C6, the code at the failing input: after `Reset("job")` and a checkpoint "A" at
reading `10`, the value returned by `GetProfile("job")` has the timeline
`[{elapsed 0, "A"}]`; after a further checkpoint "B" at reading `25` the timeline of
that same returned value reads `[{elapsed 15, "A"}]`: its slice header shares the
backing array that `SetTop` writes. -/
theorem C6_snapshot_at_failing_input :
    (do
        let r₁ ← (Trackers.empty.Reset "job").SetTracker Heap.fresh 10 10 10 "job" ["A"]
        let snapshot := r₁.2.GetProfile "job"
        let r₂ ← r₁.2.SetTracker r₁.1 25 25 25 "job" ["B"]
        pure (r₁.1.read snapshot.Top, r₂.1.read snapshot.Top) : Except Fault _).toOption
      = some ([⟨0, "A", []⟩], [⟨15, "A", []⟩]) := by
  decide

/-- C7, the code at the failing input: the connection cannot be obtained. With
`METRICS_LOG_ERRORS` unset or "yes" the policy `LogErrors()` is enabled and `Gauge`
writes no log line; with `METRICS_LOG_ERRORS` set to "no" the policy is disabled and
`Gauge` writes the error through `Elog`. -/
theorem C7_Gauge_at_failing_input :
    LogErrors (World.sample "").env = true ∧
      ((Metrics.Gauge (World.sample "") Metrics.sample Context.sample).toOption.map
        fun r => r.1.logs) = some [] ∧
      LogErrors (World.sample "yes").env = true ∧
      ((Metrics.Gauge (World.sample "yes") Metrics.sample Context.sample).toOption.map
        fun r => r.1.logs) = some [] ∧
      LogErrors (World.sample "no").env = false ∧
      ((Metrics.Gauge (World.sample "no") Metrics.sample Context.sample).toOption.map
        fun r => r.1.logs)
        = some [⟨"root: error: ", "gauge: retrieve connection: new statsd: connection refused"⟩] := by
  decide

/-- C8: `m.Fork(tags...)` returns a `Metrics` whose tag list is the tag list of `m`
followed by the new tags in order, whose connection handle is unset, whose wait group
is newly allocated (an address no wait group had before, hence not the one of `m`)
with counter zero and whose lock is newly allocated; the tag list of `m` and every
counter allocated before, the one of `m` among them, are unchanged, and no connection
is made or lost. -/
theorem C8_Metrics_Fork (w : World) (m : Metrics) (tags : List String) :
    (Metrics.Fork w m tags).1.strs.read (Metrics.Fork w m tags).2.tags
        = w.strs.read m.tags ++ tags ∧
      (Metrics.Fork w m tags).2.client = none ∧
      (Metrics.Fork w m tags).2.waitGroup = some w.nextWg ∧
      (Metrics.Fork w m tags).1.nextWg = w.nextWg + 1 ∧
      (Metrics.Fork w m tags).1.wgs w.nextWg = 0 ∧
      (∀ a, a < w.nextWg → (Metrics.Fork w m tags).2.waitGroup ≠ some a) ∧
      (Metrics.Fork w m tags).2.lock = some w.nextLock ∧
      (Metrics.Fork w m tags).1.nextLock = w.nextLock + 1 ∧
      (∀ a, a < w.nextLock → (Metrics.Fork w m tags).2.lock ≠ some a) ∧
      (Metrics.Fork w m tags).1.strs.read m.tags = w.strs.read m.tags ∧
      (∀ a, a < w.nextWg → (Metrics.Fork w m tags).1.wgs a = w.wgs a) ∧
      (Metrics.Fork w m tags).1.logs = w.logs := by
  refine ⟨?_, rfl, rfl, rfl, ?_, ?_, rfl, rfl, ?_, ?_, ?_, rfl⟩
  · simp [Metrics.Fork, Heap.read_append]
  · simp [Metrics.Fork]
  · intro a ha
    simp only [Metrics.Fork, ne_eq, Option.some.injEq]
    omega
  · intro a ha
    simp only [Metrics.Fork, ne_eq, Option.some.injEq]
    omega
  · simp [Metrics.Fork, Heap.read_append_old]
  · intro a ha
    have : a ≠ w.nextWg := by omega
    simp [Metrics.Fork, this]

/-- C9, as stated, fails: a `Context` at address `7` holds the standard context `5`;
its fork holds the value `*Context` at address `7`, not the standard context `5`. -/
theorem C9_counterexample :
    (Context.Fork (World.sample "").strs
        (fun _ => { Context.sample with Context := CtxValue.std 5 }) 7 "child").2.Context
      ≠ ({ Context.sample with Context := CtxValue.std 5 } : LogContext.Context).Context := by
  decide

/-- C9, amended: `c.Fork(name)`, for the `Context` `c` at address `p`, returns a
`Context` whose `Name` is `name`, whose Logger renders the rendering of the Logger of
`c` followed by `name` and `": "`, whose cancellable-context is the pointer `p` to `c`
itself, so that `Done` (`Deadline`, `Err`, `Value`) on the fork is `Done` on `c`, and
whose `Tracker`, `Metrics`, `Triggers` and `ManagerId` are those of `c`; the Logger of
`c` renders as before. -/
theorem C9_Context_Fork (hs : Heap String) (ctxs : Nat → LogContext.Context) (p : Nat)
    (name : String) :
    (Context.Fork hs ctxs p name).2.Name = name ∧
      (Context.Fork hs ctxs p name).2.Logger.Context (Context.Fork hs ctxs p name).1
        = (ctxs p).Logger.Context hs ++ (name ++ ": ") ∧
      (Context.Fork hs ctxs p name).2.Context = CtxValue.ptr p ∧
      (∀ n, Context.Done ctxs (n + 1) (Context.Fork hs ctxs p name).2
        = Context.Done ctxs n (ctxs p)) ∧
      (Context.Fork hs ctxs p name).2.Tracker = (ctxs p).Tracker ∧
      (Context.Fork hs ctxs p name).2.Metrics = (ctxs p).Metrics ∧
      (Context.Fork hs ctxs p name).2.Triggers = (ctxs p).Triggers ∧
      (Context.Fork hs ctxs p name).2.ManagerId = (ctxs p).ManagerId ∧
      (ctxs p).Logger.Context (Context.Fork hs ctxs p name).1 = (ctxs p).Logger.Context hs :=
  ⟨rfl, Logger_Fork_Context hs (ctxs p).Logger name, rfl, fun _ => rfl, rfl, rfl, rfl, rfl,
    Logger_Fork_frame hs (ctxs p).Logger name⟩

/-- C10, as stated, fails: with an empty location list `SetTracker` ends in the
panic of the slice expression `location[1:]`, `slice bounds out of range [1:0]`, not
in an index out of range on `location[0]`; and `SetTop` on the zero value
`ProfileState{}`, whose lock is nil, faults for a location list with an element. -/
theorem C10_counterexample :
    faultOf (Trackers.empty.SetTracker Heap.fresh 1 1 1 "job" [])
        = some Fault.sliceBoundsOutOfRange ∧
      faultOf (Trackers.empty.SetTracker Heap.fresh 1 1 1 "job" [])
        ≠ some Fault.indexOutOfRange ∧
      faultOf ((⟨Slice.nil, Time.zero, none⟩ : ProfileState).SetTop Heap.fresh 1 1 "job" ["A"])
        = some Fault.nilDereference := by
  decide

/-- C10, amended: `Trackers.SetTracker` faults with a slice-bounds panic (raised by
`location[1:]`) when the location list is empty and completes when it has an element;
so does `ProfileState.SetTop` on a state that has its lock, while on a state whose
lock is nil it faults with a nil dereference for every location list; `Tracker.Set`
and `Context.SetTracker` on a handle that has a registry behave as `SetTracker`,
while on a handle with no registry they complete and change nothing for every
location list. -/
theorem C10_fault_iff_empty_location (h : Heap ProfileInstant) (tr : Trackers)
    (state : ProfileState) (m : Mem) (tracker : Tracker) (ctx : LogContext.Context)
    (now now₁ now₂ : Time) (name : String) (location : List String) :
    ((location = [] ∧
          tr.SetTracker h now now₁ now₂ name location = .error .sliceBoundsOutOfRange) ∨
        (location ≠ [] ∧ ∃ r, tr.SetTracker h now now₁ now₂ name location = .ok r)) ∧
      ((state.lock = none ∧
          state.SetTop h now₁ now₂ name location = .error .nilDereference) ∨
        (state.lock ≠ none ∧
          ((location = [] ∧
              state.SetTop h now₁ now₂ name location = .error .sliceBoundsOutOfRange) ∨
            (location ≠ [] ∧ ∃ r, state.SetTop h now₁ now₂ name location = .ok r)))) ∧
      ((tracker.ref = none ∧ tracker.Set m now now₁ now₂ location = .ok m) ∨
        (tracker.ref ≠ none ∧
          ((location = [] ∧
              tracker.Set m now now₁ now₂ location = .error .sliceBoundsOutOfRange) ∨
            (location ≠ [] ∧ ∃ m', tracker.Set m now now₁ now₂ location = .ok m')))) ∧
      ((ctx.Tracker.ref = none ∧ ctx.SetTracker m now now₁ now₂ location = .ok m) ∨
        (ctx.Tracker.ref ≠ none ∧
          ((location = [] ∧
              ctx.SetTracker m now now₁ now₂ location = .error .sliceBoundsOutOfRange) ∨
            (location ≠ [] ∧ ∃ m', ctx.SetTracker m now now₁ now₂ location = .ok m')))) := by
  have hset : ∀ t : Tracker,
      (t.ref = none ∧ t.Set m now now₁ now₂ location = .ok m) ∨
        (t.ref ≠ none ∧
          ((location = [] ∧
              t.Set m now now₁ now₂ location = .error .sliceBoundsOutOfRange) ∨
            (location ≠ [] ∧ ∃ m', t.Set m now now₁ now₂ location = .ok m'))) := by
    intro t
    cases href : t.ref with
    | none => exact Or.inl ⟨rfl, by simp [Tracker.Set, href]⟩
    | some q =>
      refine Or.inr ⟨by simp, ?_⟩
      rcases SetTracker_fault m.heap (m.regs q) now now₁ now₂ t.name location with
        ⟨he, hf⟩ | ⟨hne, r, hr⟩
      · exact Or.inl ⟨he, by simp [Tracker.Set, href, hf]⟩
      · exact Or.inr ⟨hne, ⟨r.1, fun q' => if q' = q then r.2 else m.regs q'⟩,
          by simp only [Tracker.Set, href, hr]⟩
  refine ⟨SetTracker_fault h tr now now₁ now₂ name location, ?_, hset tracker, hset ctx.Tracker⟩
  cases hl : state.lock with
  | none => exact Or.inl ⟨rfl, by simp [ProfileState.SetTop, hl]⟩
  | some mu =>
    refine Or.inr ⟨by simp, ?_⟩
    cases location with
    | nil => exact Or.inl ⟨rfl, by simp [ProfileState.SetTop, hl]⟩
    | cons l0 rest =>
      obtain ⟨h', st', hok, _⟩ :=
        SetTop_read h state now₁ now₂ name l0 rest (by simp [hl])
      exact Or.inr ⟨by simp, (h', st'), hok⟩

end LogContext
